import Mathlib

/-!
Verification development for the basebot Heim-protocol client library.

The Python source (basebot.py) is shallowly embedded: dictionaries become
association lists, classes become structures, mutating methods become
functions from state to state, and code paths that raise exceptions return
an explicit error value (`Except` / `Option PyErr`).
-/

namespace Basebot

/-- Python exception values raised by the embedded code paths. -/
inductive PyErr where
  | nameError (n : String)
  | attributeError (n : String)
  | typeError (m : String)
  | keyError
  | noRoomError
  | noConnectionError
  | wsError (code : Nat)
deriving DecidableEq, Repr

/-- Python values stored in packet payload dictionaries. -/
inductive PyVal where
  | pynone
  | pystr (s : String)
  | pyint (n : Int)
  | pybool (b : Bool)
deriving DecidableEq, Repr

/-- Dictionary lookup: `d.get(key)` / `d[key]` on a Python dict modelled as an
association list in insertion order with unique keys. -/
def dlookup {κ α : Type} [DecidableEq κ] : List (κ × α) → κ → Option α
  | [], _ => none
  | (k, v) :: d, key => if k = key then some v else dlookup d key

/-- Dictionary update `d[key] = v`: replaces the value in place if the key is
present, appends a new entry otherwise (Python dicts keep insertion order). -/
def dinsert {κ α : Type} [DecidableEq κ] : List (κ × α) → κ → α → List (κ × α)
  | [], key, v => [(key, v)]
  | (k, w) :: d, key, v => if k = key then (k, v) :: d else (k, w) :: dinsert d key v

/-- Dictionary removal `d.pop(key)`: drops the first entry with the given key. -/
def dpop {κ α : Type} [DecidableEq κ] : List (κ × α) → κ → List (κ × α)
  | [], _ => []
  | (k, w) :: d, key => if k = key then d else (k, w) :: dpop d key

/-- Apply a function to the value stored under a key (models mutating the
list object stored in the dict, e.g. `d[key].remove(x)`). -/
def dmodify {κ α : Type} [DecidableEq κ] : List (κ × α) → κ → (α → α) → List (κ × α)
  | [], _, _ => []
  | (k, w) :: d, key, f => if k = key then (k, f w) :: d else (k, w) :: dmodify d key f

/-- `d.setdefault(key, []).append(v)`: appends `v` to the list stored under
`key`, creating the entry (at the end of the dict) if missing. -/
def daddto {κ β : Type} [DecidableEq κ] : List (κ × List β) → κ → β → List (κ × List β)
  | [], key, v => [(key, [v])]
  | (k, l) :: d, key, v => if k = key then (k, l ++ [v]) :: d else (k, l) :: daddto d key v

/-- Python `list.remove(a)`: removes the first element equal to `a`.
(The Python call raises ValueError when `a` is absent; the states this
development evaluates it on always contain `a`.) -/
def eraseFirst {α : Type} [DecidableEq α] : List α → α → List α
  | [], _ => []
  | x :: xs, a => if x = a then xs else x :: eraseFirst xs a

/-- Python string `<`: lexicographic comparison by code point. -/
def pyStrLt : List Char → List Char → Bool
  | [], [] => false
  | [], _ :: _ => true
  | _ :: _, [] => false
  | a :: as, b :: bs =>
    if a.toNat < b.toNat then true
    else if a.toNat = b.toNat then pyStrLt as bs else false

section DictLemmas

variable {κ α : Type} [DecidableEq κ]

theorem dlookup_dinsert (d : List (κ × α)) (key : κ) (v : α) (k' : κ) :
    dlookup (dinsert d key v) k' = if key = k' then some v else dlookup d k' := by
  induction d with
  | nil => simp [dinsert, dlookup]
  | cons hd tl ih =>
    obtain ⟨k, w⟩ := hd
    by_cases hk : k = key
    · subst hk
      by_cases hk' : k = k' <;> simp [dinsert, dlookup, hk']
    · by_cases hk' : k = k'
      · subst hk'
        have hkey : ¬(key = k) := fun hc => hk hc.symm
        simp [dinsert, dlookup, hk, hkey]
      · simp [dinsert, dlookup, hk, hk', ih]

theorem dlookup_none_iff (d : List (κ × α)) (k : κ) :
    dlookup d k = none ↔ k ∉ d.map Prod.fst := by
  induction d with
  | nil => simp [dlookup]
  | cons hd tl ih =>
    obtain ⟨k', w⟩ := hd
    by_cases hk : k' = k
    · subst hk
      simp [dlookup]
    · have hk2 : ¬(k = k') := fun hc => hk hc.symm
      simp [dlookup, hk, hk2, ih]

theorem dlookup_dpop_self (d : List (κ × α)) (k : κ)
    (h : (d.map Prod.fst).Nodup) : dlookup (dpop d k) k = none := by
  induction d with
  | nil => simp [dpop, dlookup]
  | cons hd tl ih =>
    obtain ⟨k₀, w⟩ := hd
    rw [List.map_cons, List.nodup_cons] at h
    by_cases hk : k₀ = k
    · subst hk
      rw [show dpop ((k₀, w) :: tl) k₀ = tl by simp [dpop]]
      exact (dlookup_none_iff tl k₀).2 h.1
    · rw [show dpop ((k₀, w) :: tl) k = (k₀, w) :: dpop tl k by simp [dpop, hk]]
      rw [show dlookup ((k₀, w) :: dpop tl k) k = dlookup (dpop tl k) k by simp [dlookup, hk]]
      exact ih h.2

theorem dlookup_dpop_ne (d : List (κ × α)) (k k' : κ) (h : k' ≠ k) :
    dlookup (dpop d k) k' = dlookup d k' := by
  induction d with
  | nil => simp [dpop]
  | cons hd tl ih =>
    obtain ⟨k₀, w⟩ := hd
    by_cases hk : k₀ = k
    · subst hk
      have hne : ¬(k₀ = k') := fun hc => h hc.symm
      simp [dpop, dlookup, hne]
    · rw [show dpop ((k₀, w) :: tl) k = (k₀, w) :: dpop tl k by simp [dpop, hk]]
      by_cases hk' : k₀ = k' <;> simp [dlookup, hk', ih]

theorem dlookup_dmodify (d : List (κ × α)) (k : κ) (f : α → α) (k' : κ) :
    dlookup (dmodify d k f) k' = if k = k' then (dlookup d k).map f else dlookup d k' := by
  induction d with
  | nil => simp [dmodify, dlookup]
  | cons hd tl ih =>
    obtain ⟨k₀, w⟩ := hd
    by_cases hk : k₀ = k
    · subst hk
      by_cases hk' : k₀ = k' <;> simp [dmodify, dlookup, hk']
    · by_cases hk' : k₀ = k'
      · subst hk'
        have hkey : ¬(k = k₀) := fun hc => hk hc.symm
        simp [dmodify, dlookup, hk, hkey]
      · simp [dmodify, dlookup, hk, hk', ih]

theorem dlookup_daddto {β : Type} (d : List (κ × List β)) (k : κ) (v : β) (k' : κ) :
    dlookup (daddto d k v) k'
      = if k = k' then some ((dlookup d k).getD [] ++ [v]) else dlookup d k' := by
  induction d with
  | nil => by_cases hk : k = k' <;> simp [daddto, dlookup, hk]
  | cons hd tl ih =>
    obtain ⟨k₀, w⟩ := hd
    by_cases hk : k₀ = k
    · subst hk
      by_cases hk' : k₀ = k' <;> simp [daddto, dlookup, hk']
    · by_cases hk' : k₀ = k'
      · subst hk'
        have hkey : ¬(k = k₀) := fun hc => hk hc.symm
        simp [daddto, dlookup, hk, hkey]
      · simp [daddto, dlookup, hk, hk', ih]

theorem keys_dmodify (d : List (κ × α)) (k : κ) (f : α → α) :
    (dmodify d k f).map Prod.fst = d.map Prod.fst := by
  induction d with
  | nil => simp [dmodify]
  | cons hd tl ih =>
    obtain ⟨k₀, w⟩ := hd
    by_cases hk : k₀ = k <;> simp [dmodify, hk, ih]

theorem mem_keys_dinsert (d : List (κ × α)) (key : κ) (v : α) (k' : κ) :
    k' ∈ (dinsert d key v).map Prod.fst ↔ k' ∈ d.map Prod.fst ∨ k' = key := by
  induction d with
  | nil => simp [dinsert]
  | cons hd tl ih =>
    obtain ⟨k₀, w⟩ := hd
    by_cases hk : k₀ = key <;> simp [dinsert, hk, ih] <;> tauto

theorem mem_keys_dpop (d : List (κ × α)) (k k' : κ)
    (h : k' ∈ (dpop d k).map Prod.fst) : k' ∈ d.map Prod.fst := by
  induction d with
  | nil => rw [show dpop ([] : List (κ × α)) k = [] from rfl] at h; exact h
  | cons hd tl ih =>
    obtain ⟨k₀, w⟩ := hd
    by_cases hk : k₀ = k
    · simp only [dpop, hk, if_true] at h
      simp [h]
    · simp only [dpop, hk, if_false, List.map_cons, List.mem_cons] at h ⊢
      tauto

theorem keys_nodup_dinsert (d : List (κ × α)) (key : κ) (v : α)
    (h : (d.map Prod.fst).Nodup) : ((dinsert d key v).map Prod.fst).Nodup := by
  induction d with
  | nil => simp [dinsert]
  | cons hd tl ih =>
    obtain ⟨k₀, w⟩ := hd
    simp only [List.map_cons, List.nodup_cons] at h
    by_cases hk : k₀ = key
    · subst hk
      rw [show dinsert ((k₀, w) :: tl) k₀ v = (k₀, v) :: tl by simp [dinsert]]
      simp only [List.map_cons, List.nodup_cons]
      exact h
    · simp only [dinsert, hk, if_false, List.map_cons, List.nodup_cons]
      refine ⟨?_, ih h.2⟩
      intro hc
      rcases (mem_keys_dinsert tl key v k₀).1 hc with h' | h'
      · exact h.1 h'
      · exact hk h'

theorem keys_nodup_dpop (d : List (κ × α)) (k : κ)
    (h : (d.map Prod.fst).Nodup) : ((dpop d k).map Prod.fst).Nodup := by
  induction d with
  | nil => simp [dpop]
  | cons hd tl ih =>
    obtain ⟨k₀, w⟩ := hd
    simp only [List.map_cons, List.nodup_cons] at h
    by_cases hk : k₀ = k
    · rw [show dpop ((k₀, w) :: tl) k = tl by simp [dpop, hk]]
      exact h.2
    · simp only [dpop, hk, if_false, List.map_cons, List.nodup_cons]
      exact ⟨fun hc => h.1 (mem_keys_dpop tl k k₀ hc), ih h.2⟩

theorem mem_keys_daddto {β : Type} (d : List (κ × List β)) (k : κ) (v : β) (k' : κ) :
    k' ∈ (daddto d k v).map Prod.fst ↔ k' ∈ d.map Prod.fst ∨ k' = k := by
  induction d with
  | nil => simp [daddto]
  | cons hd tl ih =>
    obtain ⟨k₀, w⟩ := hd
    by_cases hk : k₀ = k <;> simp [daddto, hk, ih] <;> tauto

theorem keys_nodup_daddto {β : Type} (d : List (κ × List β)) (k : κ) (v : β)
    (h : (d.map Prod.fst).Nodup) : ((daddto d k v).map Prod.fst).Nodup := by
  induction d with
  | nil => simp [daddto]
  | cons hd tl ih =>
    obtain ⟨k₀, w⟩ := hd
    simp only [List.map_cons, List.nodup_cons] at h
    by_cases hk : k₀ = k
    · subst hk
      simpa [daddto] using h
    · simp only [daddto, hk, if_false, List.map_cons, List.nodup_cons]
      refine ⟨?_, ih h.2⟩
      intro hc
      rcases (mem_keys_daddto tl k v k₀).1 hc with h' | h'
      · exact h.1 h'
      · exact hk h'

end DictLemmas

section ListLemmas

variable {α : Type} [DecidableEq α]

theorem eraseFirst_sublist (l : List α) (a : α) : List.Sublist (eraseFirst l a) l := by
  induction l with
  | nil => simp [eraseFirst]
  | cons x xs ih =>
    by_cases hx : x = a
    · rw [show eraseFirst (x :: xs) a = xs by simp [eraseFirst, hx]]
      exact List.Sublist.cons x (List.Sublist.refl xs)
    · rw [show eraseFirst (x :: xs) a = x :: eraseFirst xs a by simp [eraseFirst, hx]]
      exact List.Sublist.cons₂ x ih

theorem mem_eraseFirst_of_nodup (l : List α) (a v : α) (h : l.Nodup) :
    v ∈ eraseFirst l a ↔ v ∈ l ∧ v ≠ a := by
  induction l with
  | nil => simp [eraseFirst]
  | cons x xs ih =>
    rw [List.nodup_cons] at h
    by_cases hx : x = a
    · subst hx
      rw [show eraseFirst (x :: xs) x = xs by simp [eraseFirst]]
      constructor
      · intro hv
        exact ⟨List.mem_cons_of_mem x hv, fun hc => h.1 (hc ▸ hv)⟩
      · rintro ⟨hv, hne⟩
        rcases List.mem_cons.1 hv with h' | h'
        · exact absurd h' hne
        · exact h'
    · rw [show eraseFirst (x :: xs) a = x :: eraseFirst xs a by simp [eraseFirst, hx]]
      simp only [List.mem_cons, ih h.2]
      constructor
      · rintro (h' | ⟨h', hne⟩)
        · exact ⟨Or.inl h', h' ▸ hx⟩
        · exact ⟨Or.inr h', hne⟩
      · rintro ⟨h' | h', hne⟩
        · exact Or.inl h'
        · exact Or.inr ⟨h', hne⟩

theorem eraseFirst_of_not_mem (l : List α) (a : α) (h : a ∉ l) : eraseFirst l a = l := by
  induction l with
  | nil => simp [eraseFirst]
  | cons x xs ih =>
    rw [List.mem_cons] at h
    push_neg at h
    have hx : ¬(x = a) := fun hc => h.1 hc.symm
    simp [eraseFirst, hx, ih h.2]

theorem filter_eraseFirst (l : List α) (a : α) (p : α → Bool) :
    (eraseFirst l a).filter p
      = if p a then eraseFirst (l.filter p) a else l.filter p := by
  induction l with
  | nil => cases hpa : p a <;> simp [eraseFirst, hpa]
  | cons x xs ih =>
    by_cases hx : x = a
    · subst hx
      rw [show eraseFirst (x :: xs) x = xs by simp [eraseFirst]]
      cases hpx : p x <;> simp [List.filter_cons, hpx, eraseFirst]
    · rw [show eraseFirst (x :: xs) a = x :: eraseFirst xs a by simp [eraseFirst, hx]]
      cases hpa : p a <;> cases hpx : p x <;>
        simp [List.filter_cons, hpa, hpx, eraseFirst, hx, ih]

end ListLemmas

section FilterLemmas

variable {α : Type}

theorem filter_eq_nil_of (l : List α) (p : α → Bool)
    (h : ∀ a ∈ l, p a = false) : l.filter p = [] := by
  induction l with
  | nil => simp
  | cons x xs ih =>
    rw [List.filter_cons, h x (List.mem_cons_self x xs)]
    exact ih fun a ha => h a (List.mem_cons_of_mem x ha)

theorem filter_eq_single_of (l : List α) (p : α → Bool) (a : α)
    (ha : a ∈ l) (hpa : p a = true)
    (h : l.Pairwise fun u v => ¬(p u = true ∧ p v = true)) : l.filter p = [a] := by
  induction l with
  | nil => cases ha
  | cons x xs ih =>
    rw [List.pairwise_cons] at h
    rcases List.mem_cons.1 ha with h' | h'
    · subst h'
      rw [List.filter_cons, hpa]
      have : xs.filter p = [] := by
        refine filter_eq_nil_of xs p fun b hb => ?_
        have := h.1 b hb
        cases hpb : p b
        · rfl
        · exact absurd ⟨hpa, hpb⟩ this
      simp [this]
    · have hpx : p x = false := by
        cases hpx : p x
        · rfl
        · exact absurd ⟨hpx, hpa⟩ (h.1 a h')
      rw [List.filter_cons, hpx]
      simp only [Bool.false_eq_true, if_false]
      exact ih h' h.2

theorem filter_length_le_one (l : List α) (p : α → Bool)
    (h : l.Pairwise fun u v => ¬(p u = true ∧ p v = true)) :
    (l.filter p).length ≤ 1 := by
  rcases hf : l.filter p with _ | ⟨a, rest⟩
  · simp
  · have ha : a ∈ l.filter p := by rw [hf]; exact List.mem_cons_self a rest
    have := filter_eq_single_of l p a (List.mem_of_mem_filter ha)
      (List.of_mem_filter ha) h
    rw [hf] at this
    simp only [List.cons.injEq] at this
    simp [hf, this.2]

theorem filterCongr (l : List α) (p q : α → Bool)
    (h : ∀ a ∈ l, p a = q a) : l.filter p = l.filter q := by
  induction l with
  | nil => simp
  | cons x xs ih =>
    rw [List.filter_cons, List.filter_cons, h x (List.mem_cons_self x xs),
      ih fun a ha => h a (List.mem_cons_of_mem x ha)]

theorem filterFilter (l : List α) (p q : α → Bool) :
    (l.filter p).filter q = l.filter fun a => p a && q a := by
  induction l with
  | nil => simp
  | cons x xs ih =>
    cases hpx : p x <;> cases hqx : q x <;>
      simp [List.filter_cons, hpx, hqx, ih]

theorem pairwise_ne_of_mem {R : α → α → Prop} {l : List α}
    (hsym : ∀ a b, R a b → R b a) (h : l.Pairwise R)
    {a b : α} (ha : a ∈ l) (hb : b ∈ l) (hne : a ≠ b) : R a b := by
  induction l with
  | nil => cases ha
  | cons x xs ih =>
    rw [List.pairwise_cons] at h
    rcases List.mem_cons.1 ha with h1 | h1 <;> rcases List.mem_cons.1 hb with h2 | h2
    · exact absurd (h1.trans h2.symm) hne
    · exact h1 ▸ h.1 b h2
    · exact hsym _ _ (h2 ▸ h.1 a h1)
    · exact ih h.2 h1 h2

end FilterLemmas

/-!  SessionView and UserList (basebot.py, `class SessionView` / `class UserList`).

A SessionView is a `Record` dict whose exported fields are the seven below;
the field values a decoded wire view carries are strings except for the two
booleans (which also have `_defaults_` entries, so `view[key]` never raises
for them). -/

/-- The SessionView record: `id`, `name`, `server_id`, `server_era`,
`session_id`, `is_staff`, `is_manager`. Record equality is Python dict
equality, i.e. structural equality of all fields. -/
structure SessionView where
  id : String
  name : String
  server_id : String
  server_era : String
  session_id : String
  is_staff : Bool
  is_manager : Bool
deriving DecidableEq, Repr

/-- `view[k]` on a SessionView: exported keys return their value (the two
booleans fall back to `_defaults_` and are always present); any other key
raises KeyError, modelled as `none`. -/
def SessionView.getitem (v : SessionView) (k : String) : Option PyVal :=
  if k = "id" then some (.pystr v.id)
  else if k = "name" then some (.pystr v.name)
  else if k = "server_id" then some (.pystr v.server_id)
  else if k = "server_era" then some (.pystr v.server_era)
  else if k = "session_id" then some (.pystr v.session_id)
  else if k = "is_staff" then some (.pybool v.is_staff)
  else if k = "is_manager" then some (.pybool v.is_manager)
  else none

/-- UserList state: the main insertion-ordered list `_list` plus the three
lookup dicts `_by_session_id`, `_by_agent_id`, `_by_name`. -/
structure UserList where
  _list : List SessionView
  _by_session_id : List (String × SessionView)
  _by_agent_id : List (String × List SessionView)
  _by_name : List (String × List SessionView)
deriving DecidableEq, Repr

/-- A fresh `UserList()`. -/
def UserList.emptyUL : UserList := ⟨[], [], [], []⟩

/-- One iteration of the loop in `UserList.add`: if the session id is
already present, pop the original view out of all four containers, then
append the new view to all four. -/
def UserList.add1 (ul : UserList) (i : SessionView) : UserList :=
  let ul1 : UserList :=
    match dlookup ul._by_session_id i.session_id with
    | some orig =>
      { _list := eraseFirst ul._list orig,
        _by_session_id := dpop ul._by_session_id i.session_id,
        _by_agent_id := dmodify ul._by_agent_id orig.id (fun l => eraseFirst l orig),
        _by_name := dmodify ul._by_name orig.name (fun l => eraseFirst l orig) }
    | none => ul
  { _list := ul1._list ++ [i],
    _by_session_id := dinsert ul1._by_session_id i.session_id i,
    _by_agent_id := daddto ul1._by_agent_id i.id i,
    _by_name := daddto ul1._by_name i.name i }

/-- `UserList.add(*lst)`. -/
def UserList.add (ul : UserList) (lst : List SessionView) : UserList :=
  lst.foldl UserList.add1 ul

/-- One iteration of the loop in `UserList.remove`: pop by session id
(continuing silently on KeyError) and remove the original view from the
main list and both secondary indices. -/
def UserList.remove1 (ul : UserList) (i : SessionView) : UserList :=
  match dlookup ul._by_session_id i.session_id with
  | none => ul
  | some orig =>
    { _list := eraseFirst ul._list orig,
      _by_session_id := dpop ul._by_session_id i.session_id,
      _by_agent_id := dmodify ul._by_agent_id orig.id (fun l => eraseFirst l orig),
      _by_name := dmodify ul._by_name orig.name (fun l => eraseFirst l orig) }

/-- `UserList.remove(*lst)`. -/
def UserList.remove (ul : UserList) (lst : List SessionView) : UserList :=
  lst.foldl UserList.remove1 ul

/-- `UserList.clear()`. -/
def UserList.clear (_ul : UserList) : UserList := UserList.emptyUL

/-- The inner loop of `UserList.remove_matching`: a view matches iff every
key named in the pattern is present in the view and equal to the pattern
value (a missing key raises KeyError, which the source treats as
non-matching via `break`). -/
def matchesPattern (v : SessionView) (pattern : List (String × PyVal)) : Bool :=
  pattern.all fun kv => decide (SessionView.getitem v kv.1 = some kv.2)

/-- `UserList.remove_matching(pattern)`: an empty pattern clears the whole
list, otherwise the matching views are collected from `_list` in order and
passed to `remove`. -/
def UserList.remove_matching (ul : UserList) (pattern : List (String × PyVal)) : UserList :=
  if pattern = [] then ul.clear
  else ul.remove (ul._list.filter fun v => matchesPattern v pattern)

/-- `UserList.list()`. -/
def UserList.listUL (ul : UserList) : List SessionView := ul._list

/-- `UserList.for_session(id)`: raises KeyError if the session is unknown. -/
def UserList.for_session (ul : UserList) (id : String) : Except PyErr SessionView :=
  match dlookup ul._by_session_id id with
  | some v => .ok v
  | none => .error .keyError

/-- `UserList.for_agent(id)`. -/
def UserList.for_agent (ul : UserList) (id : String) : List SessionView :=
  (dlookup ul._by_agent_id id).getD []

/-- `UserList.for_name(name)`. -/
def UserList.for_name (ul : UserList) (name : String) : List SessionView :=
  (dlookup ul._by_name name).getD []

/-- A call in a `UserList` call sequence: `add(*vs)` or `remove(*vs)`. -/
inductive UOp where
  | add (vs : List SessionView)
  | remove (vs : List SessionView)

/-- Apply one call. -/
def applyUOp (ul : UserList) : UOp → UserList
  | .add vs => ul.add vs
  | .remove vs => ul.remove vs

/-- The UserList state reached from a fresh `UserList()` by a sequence of
`add`/`remove` calls. -/
def applyUOps (ops : List UOp) : UserList :=
  ops.foldl applyUOp UserList.emptyUL

/-- Consistency invariant of a UserList: session ids in `_list` are unique,
the dicts have unique keys, `_by_session_id` is exactly the by-session-id
view of `_list`, and the agent/name dicts store exactly the views whose
`id`/`name` field matches the key, in `_list` order. -/
structure WF (ul : UserList) : Prop where
  uniq : ul._list.Pairwise fun a b => a.session_id ≠ b.session_id
  keysS : (ul._by_session_id.map Prod.fst).Nodup
  keysA : (ul._by_agent_id.map Prod.fst).Nodup
  keysN : (ul._by_name.map Prod.fst).Nodup
  sess_mem : ∀ v ∈ ul._list, dlookup ul._by_session_id v.session_id = some v
  sess_look : ∀ s v, dlookup ul._by_session_id s = some v → v ∈ ul._list ∧ v.session_id = s
  agent : ∀ a, (dlookup ul._by_agent_id a).getD []
      = ul._list.filter fun v => decide (v.id = a)
  name : ∀ n, (dlookup ul._by_name n).getD []
      = ul._list.filter fun v => decide (v.name = n)

theorem WF.nodup {ul : UserList} (h : WF ul) : ul._list.Nodup :=
  h.uniq.imp fun hne heq => hne (congrArg SessionView.session_id heq)

theorem WF.fresh_of_none {ul : UserList} (h : WF ul) {s : String}
    (hnone : dlookup ul._by_session_id s = none) :
    ∀ v ∈ ul._list, v.session_id ≠ s := by
  intro v hv hc
  rw [← hc] at hnone
  rw [h.sess_mem v hv] at hnone
  cases hnone

theorem WF.emptyUL : WF UserList.emptyUL := by
  constructor <;> simp [UserList.emptyUL, dlookup]

/-- The state after the pop phase shared by `add` (existing session id) and
`remove`. -/
def UserList.popped (ul : UserList) (sid : String) (orig : SessionView) : UserList :=
  { _list := eraseFirst ul._list orig,
    _by_session_id := dpop ul._by_session_id sid,
    _by_agent_id := dmodify ul._by_agent_id orig.id fun l => eraseFirst l orig,
    _by_name := dmodify ul._by_name orig.name fun l => eraseFirst l orig }

theorem WF.popped {ul : UserList} (h : WF ul) {sid : String} {orig : SessionView}
    (hlook : dlookup ul._by_session_id sid = some orig) :
    WF (ul.popped sid orig) := by
  obtain ⟨hmem, hsid⟩ := h.sess_look sid orig hlook
  have hnd := h.nodup
  constructor
  · exact List.Pairwise.sublist (eraseFirst_sublist _ _) h.uniq
  · exact keys_nodup_dpop _ _ h.keysS
  · rw [UserList.popped]
    simp only
    rw [keys_dmodify]
    exact h.keysA
  · rw [UserList.popped]
    simp only
    rw [keys_dmodify]
    exact h.keysN
  · intro v hv
    rw [UserList.popped] at hv ⊢
    simp only at hv ⊢
    obtain ⟨hvl, hvne⟩ := (mem_eraseFirst_of_nodup _ _ _ hnd).1 hv
    have hne : v.session_id ≠ sid := by
      intro hc
      have h1 := h.sess_mem v hvl
      rw [hc, hlook] at h1
      exact hvne (Option.some.injEq _ _ ▸ h1.symm ▸ rfl)
    rw [dlookup_dpop_ne _ _ _ hne]
    exact h.sess_mem v hvl
  · intro s v hv
    rw [UserList.popped] at hv ⊢
    simp only at hv ⊢
    by_cases hs : s = sid
    · subst hs
      rw [dlookup_dpop_self _ _ h.keysS] at hv
      cases hv
    · rw [dlookup_dpop_ne _ _ _ hs] at hv
      obtain ⟨hvl, hvs⟩ := h.sess_look s v hv
      refine ⟨(mem_eraseFirst_of_nodup _ _ _ hnd).2 ⟨hvl, ?_⟩, hvs⟩
      intro hc
      subst hc
      exact hs (hvs ▸ hsid ▸ rfl)
  · intro a
    rw [UserList.popped]
    simp only
    rw [dlookup_dmodify]
    by_cases ha : orig.id = a
    · subst ha
      rw [if_pos rfl]
      have horig := h.agent orig.id
      have hin : orig ∈ ul._list.filter fun v => decide (v.id = orig.id) :=
        List.mem_filter.2 ⟨hmem, by simp⟩
      cases hl : dlookup ul._by_agent_id orig.id with
      | none =>
        exfalso
        rw [hl] at horig
        simp only [Option.getD_none] at horig
        rw [← horig] at hin
        cases hin
      | some l₀ =>
        rw [hl] at horig
        simp only [Option.getD_some] at horig
        show eraseFirst l₀ orig = _
        rw [horig, filter_eraseFirst]
        simp
    · rw [if_neg ha, h.agent a, filter_eraseFirst]
      simp [ha]
  · intro n
    rw [UserList.popped]
    simp only
    rw [dlookup_dmodify]
    by_cases hn : orig.name = n
    · subst hn
      rw [if_pos rfl]
      have horig := h.name orig.name
      have hin : orig ∈ ul._list.filter fun v => decide (v.name = orig.name) :=
        List.mem_filter.2 ⟨hmem, by simp⟩
      cases hl : dlookup ul._by_name orig.name with
      | none =>
        exfalso
        rw [hl] at horig
        simp only [Option.getD_none] at horig
        rw [← horig] at hin
        cases hin
      | some l₀ =>
        rw [hl] at horig
        simp only [Option.getD_some] at horig
        show eraseFirst l₀ orig = _
        rw [horig, filter_eraseFirst]
        simp
    · rw [if_neg hn, h.name n, filter_eraseFirst]
      simp [hn]

theorem WF.append {ul : UserList} (h : WF ul) {i : SessionView}
    (hfresh : ∀ v ∈ ul._list, v.session_id ≠ i.session_id) :
    WF ⟨ul._list ++ [i], dinsert ul._by_session_id i.session_id i,
        daddto ul._by_agent_id i.id i, daddto ul._by_name i.name i⟩ := by
  constructor
  · show (ul._list ++ [i]).Pairwise fun a b => a.session_id ≠ b.session_id
    rw [List.pairwise_append]
    refine ⟨h.uniq, List.pairwise_singleton _ _, ?_⟩
    intro a ha b hb
    rw [List.mem_singleton] at hb
    subst hb
    exact hfresh a ha
  · exact keys_nodup_dinsert _ _ _ h.keysS
  · exact keys_nodup_daddto _ _ _ h.keysA
  · exact keys_nodup_daddto _ _ _ h.keysN
  · intro v hv
    show dlookup (dinsert ul._by_session_id i.session_id i) v.session_id = some v
    rw [dlookup_dinsert]
    rcases List.mem_append.1 hv with hv | hv
    · rw [if_neg fun hc => hfresh v hv hc.symm]
      exact h.sess_mem v hv
    · rw [List.mem_singleton] at hv
      subst hv
      rw [if_pos rfl]
  · intro s v hv
    replace hv : dlookup (dinsert ul._by_session_id i.session_id i) s = some v := hv
    rw [dlookup_dinsert] at hv
    by_cases hs : i.session_id = s
    · rw [if_pos hs] at hv
      injection hv with hv
      subst hv
      exact ⟨List.mem_append.2 (Or.inr (List.mem_singleton.2 rfl)), hs⟩
    · rw [if_neg hs] at hv
      obtain ⟨h1, h2⟩ := h.sess_look s v hv
      exact ⟨List.mem_append.2 (Or.inl h1), h2⟩
  · intro a
    show (dlookup (daddto ul._by_agent_id i.id i) a).getD []
      = (ul._list ++ [i]).filter fun v => decide (v.id = a)
    rw [dlookup_daddto]
    by_cases ha : i.id = a
    · subst ha
      rw [if_pos rfl]
      simp only [Option.getD_some]
      rw [h.agent i.id, List.filter_append]
      simp
    · rw [if_neg ha, h.agent a, List.filter_append]
      simp [ha]
  · intro n
    show (dlookup (daddto ul._by_name i.name i) n).getD []
      = (ul._list ++ [i]).filter fun v => decide (v.name = n)
    rw [dlookup_daddto]
    by_cases hn : i.name = n
    · subst hn
      rw [if_pos rfl]
      simp only [Option.getD_some]
      rw [h.name i.name, List.filter_append]
      simp
    · rw [if_neg hn, h.name n, List.filter_append]
      simp [hn]

theorem WF.add1 {ul : UserList} (h : WF ul) (i : SessionView) : WF (ul.add1 i) := by
  cases hlook : dlookup ul._by_session_id i.session_id with
  | none =>
    rw [show ul.add1 i = ⟨ul._list ++ [i], dinsert ul._by_session_id i.session_id i,
        daddto ul._by_agent_id i.id i, daddto ul._by_name i.name i⟩ by
      simp [UserList.add1, hlook]]
    exact h.append (h.fresh_of_none hlook)
  | some orig =>
    have hp := h.popped hlook
    rw [show ul.add1 i
        = ⟨(ul.popped i.session_id orig)._list ++ [i],
           dinsert (ul.popped i.session_id orig)._by_session_id i.session_id i,
           daddto (ul.popped i.session_id orig)._by_agent_id i.id i,
           daddto (ul.popped i.session_id orig)._by_name i.name i⟩ by
      simp [UserList.add1, UserList.popped, hlook]]
    refine hp.append ?_
    intro v hv
    replace hv : v ∈ eraseFirst ul._list orig := hv
    obtain ⟨hvl, hvne⟩ := (mem_eraseFirst_of_nodup _ _ _ h.nodup).1 hv
    intro hc
    have h1 := h.sess_mem v hvl
    rw [hc, hlook] at h1
    injection h1 with h1
    exact hvne h1.symm

theorem WF.remove1 {ul : UserList} (h : WF ul) (i : SessionView) : WF (ul.remove1 i) := by
  cases hlook : dlookup ul._by_session_id i.session_id with
  | none =>
    rw [show ul.remove1 i = ul by simp [UserList.remove1, hlook]]
    exact h
  | some orig =>
    rw [show ul.remove1 i = ul.popped i.session_id orig by
      simp [UserList.remove1, UserList.popped, hlook]]
    exact h.popped hlook

theorem WF.addList {ul : UserList} (h : WF ul) (vs : List SessionView) :
    WF (ul.add vs) := by
  induction vs generalizing ul with
  | nil => exact h
  | cons v vs ih =>
    show WF (UserList.add (ul.add1 v) vs)
    exact ih (h.add1 v)

theorem WF.removeList {ul : UserList} (h : WF ul) (vs : List SessionView) :
    WF (ul.remove vs) := by
  induction vs generalizing ul with
  | nil => exact h
  | cons v vs ih =>
    show WF (UserList.remove (ul.remove1 v) vs)
    exact ih (h.remove1 v)

theorem WF.applyUOp {ul : UserList} (h : WF ul) (op : UOp) : WF (applyUOp ul op) := by
  cases op with
  | add vs => exact h.addList vs
  | remove vs => exact h.removeList vs

theorem WF_applyUOps (ops : List UOp) : WF (applyUOps ops) := by
  suffices haux : ∀ (ul : UserList), WF ul → WF (ops.foldl Basebot.applyUOp ul) from
    haux UserList.emptyUL WF.emptyUL
  induction ops with
  | nil => exact fun ul h => h
  | cons op ops ih => exact fun ul h => ih _ (h.applyUOp op)

theorem sid_pairwise_bool {l : List SessionView}
    (h : l.Pairwise fun a b => a.session_id ≠ b.session_id) (s : String) :
    l.Pairwise fun u v =>
      ¬((decide (u.session_id = s)) = true ∧ (decide (v.session_id = s)) = true) :=
  h.imp fun hne hand =>
    hne ((of_decide_eq_true hand.1).trans (of_decide_eq_true hand.2).symm)

theorem add1_filter_sid {ul : UserList} (h : WF ul) (i : SessionView) :
    ((ul.add1 i)._list.filter fun v => decide (v.session_id = i.session_id)) = [i] := by
  cases hlook : dlookup ul._by_session_id i.session_id with
  | none =>
    rw [show (ul.add1 i)._list = ul._list ++ [i] by simp [UserList.add1, hlook]]
    rw [List.filter_append,
      filter_eq_nil_of _ _ fun v hv => by simp [h.fresh_of_none hlook v hv]]
    simp
  | some orig =>
    obtain ⟨hmem, hsid⟩ := h.sess_look _ _ hlook
    rw [show (ul.add1 i)._list = eraseFirst ul._list orig ++ [i] by
      simp [UserList.add1, hlook]]
    rw [List.filter_append, filter_eraseFirst, if_pos (by simp [hsid])]
    rw [filter_eq_single_of _ _ orig hmem (by simp [hsid]) (sid_pairwise_bool h.uniq _)]
    simp [eraseFirst]

/-- C4: over every sequence of `add`/`remove` calls starting from a fresh
UserList, at most one entry exists per session id; adding a view whose
session id is present leaves that view as the unique entry for the id; and
`for_name` / `for_agent` return exactly the stored views whose `name` / `id`
field matches, in list order. -/
theorem C4_user_index_consistency :
    ∀ ops : List UOp,
      (∀ s, ((applyUOps ops)._list.filter fun v => decide (v.session_id = s)).length ≤ 1) ∧
      (∀ i, ((applyUOps (ops ++ [UOp.add [i]]))._list.filter
          fun v => decide (v.session_id = i.session_id)) = [i]) ∧
      (∀ n, (applyUOps ops).for_name n
          = (applyUOps ops)._list.filter fun v => decide (v.name = n)) ∧
      (∀ a, (applyUOps ops).for_agent a
          = (applyUOps ops)._list.filter fun v => decide (v.id = a)) := by
  intro ops
  have h := WF_applyUOps ops
  refine ⟨?_, ?_, h.name, h.agent⟩
  · intro s
    exact filter_length_le_one _ _ (sid_pairwise_bool h.uniq s)
  · intro i
    have : applyUOps (ops ++ [UOp.add [i]]) = (applyUOps ops).add1 i := by
      rw [applyUOps, List.foldl_append]
      rfl
    rw [this]
    exact add1_filter_sid h i

theorem eraseFirst_eq_filter_of_nodup {α : Type} [DecidableEq α] (l : List α) (a : α)
    (h : l.Nodup) : eraseFirst l a = l.filter fun v => !decide (v = a) := by
  induction l with
  | nil => simp [eraseFirst]
  | cons x xs ih =>
    rw [List.nodup_cons] at h
    by_cases hx : x = a
    · subst hx
      rw [show eraseFirst (x :: xs) x = xs by simp [eraseFirst]]
      have hxs : xs.filter (fun v => !decide (v = x)) = xs := by
        refine List.filter_eq_self.2 fun b hb => ?_
        have hbx : ¬(b = x) := fun hc => h.1 (hc ▸ hb)
        simp [hbx]
      simp [List.filter_cons, hxs]
    · rw [show eraseFirst (x :: xs) a = x :: eraseFirst xs a by simp [eraseFirst, hx]]
      simp [List.filter_cons, hx, ih h.2]

theorem remove_chain {ul : UserList} (h : WF ul) (rml : List SessionView)
    (hsub : ∀ v ∈ rml, v ∈ ul._list) (hnd : rml.Nodup) :
    (ul.remove rml)._list = ul._list.filter (fun v => !decide (v ∈ rml))
      ∧ WF (ul.remove rml) := by
  induction rml generalizing ul with
  | nil =>
    refine ⟨?_, h⟩
    show ul._list = _
    exact (List.filter_eq_self.2 fun b _ => by simp).symm
  | cons r rs ih =>
    have hrl : r ∈ ul._list := hsub r (List.mem_cons_self r rs)
    have hlook : dlookup ul._by_session_id r.session_id = some r := h.sess_mem r hrl
    have hstep : ul.remove1 r = ul.popped r.session_id r := by
      simp [UserList.remove1, UserList.popped, hlook]
    rw [List.nodup_cons] at hnd
    have hp : WF (ul.popped r.session_id r) := h.popped hlook
    have hsub' : ∀ v ∈ rs, v ∈ (ul.popped r.session_id r)._list := by
      intro v hv
      show v ∈ eraseFirst ul._list r
      exact (mem_eraseFirst_of_nodup _ _ _ h.nodup).2
        ⟨hsub v (List.mem_cons_of_mem r hv), fun hc => hnd.1 (hc ▸ hv)⟩
    have hmain : UserList.remove ul (r :: rs)
        = UserList.remove (ul.popped r.session_id r) rs := by
      show UserList.remove (ul.remove1 r) rs = _
      rw [hstep]
    obtain ⟨ih1, ih2⟩ := ih hp hsub' hnd.2
    rw [hmain]
    refine ⟨?_, ih2⟩
    rw [ih1]
    show List.filter _ (eraseFirst ul._list r) = _
    rw [eraseFirst_eq_filter_of_nodup _ _ h.nodup, filterFilter]
    apply filterCongr
    intro a _
    by_cases h1 : a = r <;> by_cases h2 : a ∈ rs <;> simp [h1, h2]

/-- C8: starting from any reachable User Index state, `remove_matching({})`
empties the index, and for a non-empty pattern `remove_matching(pattern)`
removes exactly the entries in which every key named in the pattern is
present and equal to the pattern value, leaving the others (in order). -/
theorem C8_remove_matching (ops : List UOp) (pattern : List (String × PyVal))
    (hne : pattern ≠ []) :
    (UserList.remove_matching (applyUOps ops) [])._list = [] ∧
    (UserList.remove_matching (applyUOps ops) pattern)._list
      = (applyUOps ops)._list.filter fun v => !(matchesPattern v pattern) := by
  have h := WF_applyUOps ops
  constructor
  · simp [UserList.remove_matching, UserList.clear, UserList.emptyUL]
  · rw [show UserList.remove_matching (applyUOps ops) pattern
        = (applyUOps ops).remove
            ((applyUOps ops)._list.filter fun v => matchesPattern v pattern) by
      simp [UserList.remove_matching, hne]]
    have hsub : ∀ v ∈ (applyUOps ops)._list.filter (fun v => matchesPattern v pattern),
        v ∈ (applyUOps ops)._list := fun v hv => List.mem_of_mem_filter hv
    obtain ⟨h1, _⟩ := remove_chain h _ hsub (h.nodup.filter _)
    rw [h1]
    apply filterCongr
    intro a ha
    by_cases hm : matchesPattern a pattern
    · simp [List.mem_filter, ha, hm]
    · simp [List.mem_filter, hm]

/-- Witness for C8 at a concrete call sequence and pattern. -/
theorem C8_remove_matching_witness :
    (UserList.remove_matching (applyUOps []) [])._list = [] ∧
    (UserList.remove_matching (applyUOps []) [("name", PyVal.pystr "x")])._list
      = (applyUOps [])._list.filter
          fun v => !(matchesPattern v [("name", PyVal.pystr "x")]) :=
  C8_remove_matching [] [("name", PyVal.pystr "x")] (by simp)

/-!  Message and @-mention extraction (basebot.py, `MENTION_RE` /
`class Message`).

`MENTION_RE = (?:^|(?<=D))@(\S+?)(?=D|$)` with `D = [,.!?;&<\x27"\s]`.
A match starts at an `@` that is at position 0 or preceded by a delimiter,
requires the next character to exist and be non-whitespace, and (because the
lazy `\S+?` stops at the first position where the lookahead holds, and every
whitespace character is a delimiter) ends just before the first delimiter at
or after the second character past the `@`, or at end of string.
`Message.mention_list` iterates `MENTION_RE.search(s, o)` from offset 0,
recording `(m.start(), m.group())` and resuming at `m.end()`. -/

/-- Python `\s` on the ASCII range: space, tab, newline, carriage return,
vertical tab, form feed. -/
def isPySpace (c : Char) : Bool :=
  c = ' ' || c = Char.ofNat 9 || c = Char.ofNat 10 || c = Char.ofNat 13
    || c = Char.ofNat 11 || c = Char.ofNat 12

/-- The `_MENTION_DELIMITER` character class `[,.!?;&<\x27"\s]`
(`\x27` is the single-quote character). -/
def isMentionDelim (c : Char) : Bool :=
  c = ',' || c = '.' || c = '!' || c = '?' || c = ';' || c = '&' || c = '<'
    || c = Char.ofNat 39 || c = '"' || isPySpace c

/-- End position of the lazy `\S+?` match beginning at `@`-position `p`:
the first index `j ≥ p + 2` such that `j` is the end of the string or
`s[j]` is a delimiter. `fuel` bounds the scan (callers pass at least
`s.length`, which suffices since `j` only grows). -/
def mentionEnd (s : List Char) : Nat → Nat → Nat
  | 0, j => j
  | fuel + 1, j =>
    if j < s.length then
      if isMentionDelim (s.getD j ' ') then j else mentionEnd s fuel (j + 1)
    else j

/-- Does a `MENTION_RE` match start at position `p`? Requires `s[p] = '@'`,
start-of-string or a delimiter before it, and a following non-whitespace
character. -/
def mentionStartOk (s : List Char) (p : Nat) : Bool :=
  decide (p < s.length) && (s.getD p ' ' = '@')
    && (decide (p = 0) || isMentionDelim (s.getD (p - 1) ' '))
    && decide (p + 1 < s.length) && !(isPySpace (s.getD (p + 1) ' '))

/-- `MENTION_RE.search(s, o)`: the leftmost match whose `@` is at position
`≥ o`, returned as `(start, end)`. -/
def mentionSearch (s : List Char) : Nat → Nat → Option (Nat × Nat)
  | 0, _ => none
  | fuel + 1, p =>
    if p < s.length then
      if mentionStartOk s p then some (p, mentionEnd s s.length (p + 2))
      else mentionSearch s fuel (p + 1)
    else none

/-- The `while o < ls` loop in `Message.mention_list`: records
`(m.start(), m.group())` for each match and resumes at `m.end()`. -/
def mentionScan (s : List Char) : Nat → Nat → List (Nat × List Char)
  | 0, _ => []
  | fuel + 1, o =>
    if o < s.length then
      match mentionSearch s (s.length + 1) o with
      | none => []
      | some (p, e) => (p, (s.drop p).take (e - p)) :: mentionScan s fuel e
    else []

/-- The mention list computed from a content string (the `fuel` arguments
strictly bound the loops: each search advances by at least one position and
each match advances `o` by at least two). -/
def computeMentionList (s : List Char) : List (Nat × List Char) :=
  mentionScan s (s.length + 1) 0

/-- The Message record, reduced to the fields the verified operations
touch: `id`, `parent`, `content`, and the two private mention caches
(`__mention_list` / `__mention_set`), which start out as `None`. -/
structure Message where
  id : String
  parent : Option String
  content : List Char
  mention_list_cache : Option (List (Nat × List Char)) := none
  mention_set_cache : Option (List (List Char)) := none
deriving DecidableEq, Repr

/-- Reading the `mention_list` property: computes and caches the mention
list on first access, returns the cache afterwards. -/
def Message.mention_list (m : Message) : Message × List (Nat × List Char) :=
  match m.mention_list_cache with
  | some l => (m, l)
  | none =>
    let l := computeMentionList m.content
    ({ m with mention_list_cache := some l }, l)

/-- Reading the `mention_set` property. The source builds the set with
`frozenset(i[1][1:] for i in self.__mention_list)` — iterating the raw
`__mention_list` cache attribute, not the `mention_list` property — so when
the list cache is still `None` the iteration raises
`TypeError: NoneType object is not iterable`. The frozenset is modelled as
the deduplicated list of names. -/
def Message.mention_set (m : Message) : Except PyErr (Message × List (List Char)) :=
  match m.mention_set_cache with
  | some s => .ok (m, s)
  | none =>
    match m.mention_list_cache with
    | none => .error (.typeError "NoneType object is not iterable")
    | some l =>
      let s := (l.map fun pr => pr.2.drop 1).dedup
      .ok ({ m with mention_set_cache := some s }, s)

/-- Reassigning `content` (via `Record.__setattr__`, which funnels into
`Message.__setitem__`): stores the new value and resets both caches. -/
def Message.setitem_content (m : Message) (c : List Char) : Message :=
  { m with content := c, mention_list_cache := none, mention_set_cache := none }

/-!  MessageTree (basebot.py, `class MessageTree`). -/

/-- MessageTree state: `_messages` (id → Message), `_children`
(parent id or None → ordered child-id list), and the earliest/latest
trackers. -/
structure MessageTree where
  _messages : List (String × Message)
  _children : List (Option String × List String)
  _earliest : Option Message
  _latest : Option Message
deriving DecidableEq, Repr

/-- A fresh `MessageTree()`. -/
def MessageTree.emptyMT : MessageTree := ⟨[], [], none, none⟩

/-- The state mutations of one iteration of the loop in `MessageTree.add`,
up to (but not including) the `sorts.add(c)` statement: store the message
under its id, append the id to its parent's child list unless present, and
update the earliest/latest trackers (string comparison of ids; ties go to
the newer message for `_latest`). -/
def MessageTree.addStep (t : MessageTree) (msg : Message) : MessageTree :=
  let messages := dinsert t._messages msg.id msg
  let c := (dlookup t._children msg.parent).getD []
  let c := if msg.id ∈ c then c else c ++ [msg.id]
  let children := dinsert t._children msg.parent c
  let earliest := match t._earliest with
    | none => some msg
    | some e => if pyStrLt msg.id.toList e.id.toList then some msg else t._earliest
  let latest := match t._latest with
    | none => some msg
    | some l => if !(pyStrLt msg.id.toList l.id.toList) then some msg else t._latest
  { _messages := messages, _children := children,
    _earliest := earliest, _latest := latest }

/-- `MessageTree.add(*lst)`. With a non-empty argument list the first loop
iteration performs its mutations and then executes `sorts.add(c)`, where
`c` is the (unhashable) Python list of child ids — raising
`TypeError: unhashable type: list` and aborting the call; the remaining
messages are never processed. With no arguments the loop and the final
`for l in sorts` loop are empty and the call succeeds. -/
def MessageTree.add (t : MessageTree) : List Message → MessageTree × Option PyErr
  | [] => (t, none)
  | msg :: _ => (t.addStep msg, some (.typeError "unhashable type: list"))

/-- `MessageTree.get(id)`: raises KeyError when the id is unknown. -/
def MessageTree.get (t : MessageTree) (id : String) : Except PyErr Message :=
  match dlookup t._messages id with
  | some m => .ok m
  | none => .error .keyError

/-- `MessageTree.list(parent)`: looks up the child-id list (defaulting to
empty) and resolves every child id through `_messages` (a dangling child id
would raise KeyError). -/
def MessageTree.listMT (t : MessageTree) (parent : Option String) : Except PyErr (List Message) :=
  ((dlookup t._children parent).getD []).mapM fun i =>
    match dlookup t._messages i with
    | some m => Except.ok m
    | none => Except.error PyErr.keyError

/-- C9: evaluating mention extraction on the spec example. `mention_list`
yields `@bob` and `@carol` in order, repeated reads return the cached equal
result, and reassigning `content` invalidates the cache; but reading the
`mention_set` property on a fresh Message raises
`TypeError: NoneType object is not iterable`, because the property iterates
the raw `__mention_list` cache attribute (still `None`) instead of the
`mention_list` property. -/
theorem C9_mention_extraction :
    ((Message.mk "m1" none "@bob, hi @carol!".toList none none).mention_list.2
        = [(0, "@bob".toList), (9, "@carol".toList)])
    ∧ ((Message.mk "m1" none "@bob, hi @carol!".toList none none).mention_list.1.mention_list.2
        = (Message.mk "m1" none "@bob, hi @carol!".toList none none).mention_list.2)
    ∧ ((Message.mk "m1" none "@bob, hi @carol!".toList none none).mention_set
        = .error (.typeError "NoneType object is not iterable"))
    ∧ (((Message.mk "m1" none "@bob, hi @carol!".toList none none).mention_list.1.setitem_content
          "no mentions here".toList).mention_list.2 = []) :=
  ⟨rfl, rfl, rfl, rfl⟩

/-- C3: `MessageTree.add` never completes on a non-empty argument list: the
first iteration stores the message and links it under its parent, but the
`sorts.add(c)` statement then raises `TypeError: unhashable type: list`
(`c` is the mutable child-id list), so the claimed invariant maintenance is
unreachable. Shown here on a fresh tree and a single message. -/
theorem C3_messagetree_add_raises :
    MessageTree.emptyMT.add [{ id := "1", parent := none, content := [] }]
      = ({ _messages := [("1", { id := "1", parent := none, content := [] })],
           _children := [(none, ["1"])],
           _earliest := some { id := "1", parent := none, content := [] },
           _latest := some { id := "1", parent := none, content := [] } },
         some (.typeError "unhashable type: list")) :=
  rfl

/-- C10: for every MessageTree state, `get(id)` raises KeyError exactly when
no message with that id is stored, and `list(parent)` returns the empty
list (rather than raising) when the parent has no recorded children. Both
operations are pure functions of the tree, so neither modifies it. -/
theorem C10_get_listMT_behaviour (t : MessageTree) (id : String) (parent : Option String)
    (h : (dlookup t._children parent).getD [] = []) :
    (t.get id = .error .keyError ↔ dlookup t._messages id = none)
      ∧ t.listMT parent = .ok [] := by
  constructor
  · constructor
    · intro hg
      cases hl : dlookup t._messages id with
      | none => rfl
      | some m =>
        rw [MessageTree.get, hl] at hg
        cases hg
    · intro hl
      rw [MessageTree.get, hl]
  · rw [MessageTree.listMT, h]
    rfl

/-- Witness for C10 on a concrete tree. -/
theorem C10_get_listMT_behaviour_witness :
    (MessageTree.emptyMT.get "a" = .error .keyError
        ↔ dlookup MessageTree.emptyMT._messages "a" = none)
      ∧ MessageTree.emptyMT.listMT none = .ok [] :=
  C10_get_listMT_behaviour MessageTree.emptyMT "a" none rfl

/-!  Connection manager (basebot.py, `HeimEndpoint._attempt` / `_connect` /
`recv_raw` / `send_raw`).

`_attempt(func)` runs `func(i, count)` for `i in range(count + 1)`, sleeping
`retry_delay` seconds before every attempt but the first (sleeps are not
modelled), returning the first successful result and re-raising the failure
of attempt `count` if every attempt fails. The outcome of the `i`-th call
is supplied by an oracle `f : Nat → Except E A`. -/

/-- The `for i in range(count + 1)` loop of `_attempt`, with `remaining`
being `count - i`. Returns the number of calls made to `func` together with
the result (first success, or the exception of the final attempt; on the
final attempt, `remaining = 0`, the loop returns a success and re-raises a
failure, i.e. passes the outcome through either way). -/
def attemptGo {E A : Type} (f : Nat → Except E A) : Nat → Nat → Nat × Except E A
  | 0, i => (1, f i)
  | r + 1, i =>
    match f i with
    | Except.ok a => (1, Except.ok a)
    | Except.error _ =>
      let rest := attemptGo f r (i + 1)
      (rest.1 + 1, rest.2)

/-- `_attempt(func)` with configured `retry_count = count`. -/
def attemptRun {E A : Type} (f : Nat → Except E A) (count : Nat) : Nat × Except E A :=
  attemptGo f count 0

theorem attemptGo_allfail {E A : Type} {f : Nat → Except E A} {e : Nat → E}
    (hf : ∀ i, f i = .error (e i)) :
    ∀ (r i : Nat), attemptGo f r i = (r + 1, .error (e (i + r))) := by
  intro r
  induction r with
  | zero =>
    intro i
    simp [attemptGo, hf i]
  | succ r ih =>
    intro i
    rw [show attemptGo f (r + 1) i
        = ((attemptGo f r (i + 1)).1 + 1, (attemptGo f r (i + 1)).2) by
      simp [attemptGo, hf i]]
    rw [ih (i + 1)]
    have hadd : i + 1 + r = i + (r + 1) := by omega
    rw [hadd]

/-- `HeimEndpoint._connect`, reduced to its sequential skeleton: raise
NoRoomError when no room is configured, return immediately when already
connected, otherwise run `_attempt(lambda c, a: self._make_connection(url))`
whose `i`-th invocation outcome is given by the oracle `mk`. Returns the
number of connection attempts made and the result. -/
def connectRun (roomname : Option String) (connected : Bool) (retry_count : Nat)
    (mk : Nat → Except PyErr Unit) : Nat × Except PyErr Unit :=
  match roomname with
  | none => (0, .error .noRoomError)
  | some _ =>
    if connected then (0, .ok ())
    else attemptRun mk retry_count

/-- C7: with `retry_count = 2` (and `retry_delay = 0`; the delay only feeds
`time.sleep` and has no further effect), a `connect()` on a configured,
unconnected endpoint whose connection attempts all fail makes exactly three
`_make_connection` calls and surfaces the failure of the last (third)
attempt; there is no fourth attempt. -/
theorem C7_connect_retry_bound (room : String) (mk : Nat → Except PyErr Unit)
    (e : Nat → PyErr) (hf : ∀ i, mk i = .error (e i)) :
    connectRun (some room) false 2 mk = (3, .error (e 2)) := by
  rw [show connectRun (some room) false 2 mk = attemptRun mk 2 from rfl,
    attemptRun, attemptGo_allfail hf 2 0]

/-- Witness for C7 with a concrete all-failing connection oracle. -/
theorem C7_connect_retry_bound_witness :
    connectRun (some "room") false 2 (fun i => .error (.wsError i))
      = (3, .error (.wsError 2)) :=
  C7_connect_retry_bound "room" (fun i => .error (.wsError i)) (fun i => .wsError i)
    (fun _ => rfl)

/-!  `recv_raw` / `send_raw` with `retry=True`.

`recv_raw(retry=True)` is `self._attempt(lambda c, a: self.recv_raw(False))`
and `recv_raw(False)` is `get_connection()` + `conn.recv()`; symmetrically
for `send_raw`. The body never invokes `_reconnect`/`reconnect`/`connect`,
so the trace below counts the bare operation attempts and (constantly zero,
by the structure of the source) the reconnection attempts performed. -/

/-- Observable effects of one `recv_raw`/`send_raw` call with retries. -/
structure RetryTrace where
  opAttempts : Nat
  reconnectAttempts : Nat
deriving DecidableEq, Repr

/-- `recv_raw(False)` as attempt number `i`: NoConnectionError when there is
no connection, otherwise the transport outcome given by the oracle. -/
def recv_raw_once {A : Type} (connected : Bool) (oracle : Nat → Except PyErr A)
    (i : Nat) : Except PyErr A :=
  if connected then oracle i else .error .noConnectionError

/-- `recv_raw(retry=True)` with configured `retry_count = count`. -/
def recv_raw {A : Type} (count : Nat) (connected : Bool)
    (oracle : Nat → Except PyErr A) : RetryTrace × Except PyErr A :=
  let r := attemptRun (recv_raw_once connected oracle) count
  ({ opAttempts := r.1, reconnectAttempts := 0 }, r.2)

/-- `send_raw(obj, retry=True)` with configured `retry_count = count`
(the oracle gives the outcome of the `i`-th `conn.send(obj)`). -/
def send_raw {A : Type} (count : Nat) (connected : Bool)
    (oracle : Nat → Except PyErr A) : RetryTrace × Except PyErr A :=
  let r := attemptRun (recv_raw_once connected oracle) count
  ({ opAttempts := r.1, reconnectAttempts := 0 }, r.2)

/-- C2 counterexample: with the default `retry_count = 4`, a `recv_raw` on
a connected endpoint whose transport fails on every attempt performs five
operation attempts and zero reconnection attempts — not the claimed single
reconnection with a single retry (two attempts) and a surfaced second
failure. -/
theorem C2_counterexample :
    recv_raw 4 true (fun i => (Except.error (PyErr.wsError i) : Except PyErr Unit))
        = (⟨5, 0⟩, .error (.wsError 4))
      ∧ ¬((recv_raw 4 true
            (fun i => (Except.error (PyErr.wsError i) : Except PyErr Unit))).1.opAttempts = 2
          ∧ (recv_raw 4 true
            (fun i => (Except.error (PyErr.wsError i) : Except PyErr Unit))).1.reconnectAttempts
              = 1) := by
  refine ⟨rfl, ?_⟩
  rintro ⟨h1, -⟩
  rw [show (recv_raw 4 true
      (fun i => (Except.error (PyErr.wsError i) : Except PyErr Unit))).1.opAttempts = 5
    from rfl] at h1
  cases h1

/-- C2 amended: on transport failure with retry enabled, `recv_raw` and
`send_raw` simply re-run the bare operation, making `retry_count + 1`
attempts in total (with `retry_delay` sleeps in between) and performing no
reconnection at all; only after the final attempt fails is its exception
raised to the caller. -/
theorem C2_retry_behaviour {A : Type} (count : Nat)
    (oracle : Nat → Except PyErr A) (e : Nat → PyErr)
    (hf : ∀ i, oracle i = .error (e i)) :
    recv_raw count true oracle = (⟨count + 1, 0⟩, .error (e count))
      ∧ send_raw count true oracle = (⟨count + 1, 0⟩, .error (e count)) := by
  have honce : ∀ i, recv_raw_once true oracle i = .error (e i) := by
    intro i
    rw [recv_raw_once, if_pos rfl, hf i]
  constructor
  · rw [recv_raw, attemptRun, attemptGo_allfail honce count 0]
    simp
  · rw [send_raw, attemptRun, attemptGo_allfail honce count 0]
    simp

/-- Witness for the amended C2 with a concrete all-failing transport. -/
theorem C2_retry_behaviour_witness :
    recv_raw 4 true (fun i => (Except.error (PyErr.wsError i) : Except PyErr Unit))
        = (⟨5, 0⟩, .error (.wsError 4))
      ∧ send_raw 4 true (fun i => (Except.error (PyErr.wsError i) : Except PyErr Unit))
        = (⟨5, 0⟩, .error (.wsError 4)) :=
  C2_retry_behaviour 4 (fun i => .error (.wsError i)) (fun i => .wsError i) (fun _ => rfl)

/-!  Packet dispatcher (basebot.py, `HeimEndpoint.handle` and the built-in
`on_*` handlers, `send_packet`, `set_nickname`, `set_passcode`).

The endpoint state keeps the attributes these methods read or write. Frames
successfully handed to `conn.send` are collected in `outbox` (a live
connection's send is assumed to succeed; without a connection the send
raises NoConnectionError — after the fruitless retries of the `send_raw`
model above). `reconnect_requests` counts `reconnect()` invocations, whose
transport effects are external to this pure dispatcher model. -/

/-- An outbound frame as built by `send_packet_raw`. -/
structure OutPacket where
  type : String
  id : String
  data : Option (List (String × PyVal))
deriving DecidableEq, Repr

/-- The `HeimEndpoint` attributes used by the dispatcher paths. -/
structure HeimEndpoint where
  roomname : Option String := none
  nickname : Option String := none
  passcode : Option String := none
  handlers : List (Option String × List Nat) := []
  cmdid : Nat := 0
  callbacks : List (String × Nat) := []
  eff_nickname : Option String := none
  connected : Bool := false
  _logged_in : Bool := false
  outbox : List OutPacket := []
  reconnect_requests : Nat := 0
deriving DecidableEq, Repr

/-- An inbound packet dict, modelled by the keys the dispatcher reads:
`id`, `type`, the top-level `time` and `reason` entries (absent on
protocol-conformant events, whose payload lives under `data`), the
`data['time']` field a wire ping-event carries, and
`data.get('auth_options', ())` of a bounce-event. -/
structure Packet where
  id : Option String := none
  type : Option String := none
  time : Option Int := none
  reason : Option String := none
  data_time : Option Int := none
  data_auth_options : List String := []
deriving DecidableEq, Repr

/-- A Python value or None from an optional integer. -/
def pyOfOptInt : Option Int → PyVal
  | none => .pynone
  | some n => .pyint n

/-- `HeimEndpoint.send_raw` as used on the sending paths below, with the
connection's outcome made deterministic: append the frame to `outbox` when
connected, raise NoConnectionError otherwise (after the fruitless retries
modelled by `Basebot.send_raw`). -/
def HeimEndpoint.send_frame (st : HeimEndpoint) (pkt : OutPacket) :
    HeimEndpoint × Option PyErr :=
  if st.connected then ({ st with outbox := st.outbox ++ [pkt] }, none)
  else (st, some .noConnectionError)

/-- `send_packet_raw(type, callback, data)`: allocate the next sequential
command id, register the callback (if any) under it, build the frame and
send it. Returns the possibly-updated state, the returned command id, and
the exception if the send raised. -/
def HeimEndpoint.send_packet_raw (st : HeimEndpoint) (type : String)
    (callback : Option Nat) (data : Option (List (String × PyVal))) :
    HeimEndpoint × Option String × Option PyErr :=
  let cmdid := toString st.cmdid
  let st1 : HeimEndpoint :=
    { st with
      cmdid := st.cmdid + 1,
      callbacks := match callback with
        | some cb => dinsert st.callbacks cmdid cb
        | none => st.callbacks }
  let pkt : OutPacket := { type := type, id := cmdid, data := data }
  match st1.send_frame pkt with
  | (st2, none) => (st2, some cmdid, none)
  | (st2, some e) => (st2, none, some e)

/-- `send_packet(_type, _callback=None, **_data)`. -/
def HeimEndpoint.send_packet (st : HeimEndpoint) (type : String)
    (callback : Option Nat) (data : List (String × PyVal)) :
    HeimEndpoint × Option String × Option PyErr :=
  st.send_packet_raw type callback (some data)

/-- `set_nickname(nick=None)`. The argument is `none` for the Ellipsis
sentinel and `some v` for an actual value (so the bare call
`set_nickname()` passes `some none`, overwriting the nickname attribute
with None). A `nick` command is sent only when connected and the resulting
nickname is not None. -/
def HeimEndpoint.set_nickname (st : HeimEndpoint) (nick : Option (Option String)) :
    HeimEndpoint × Option String × Option PyErr :=
  let st1 : HeimEndpoint := match nick with
    | some v => { st with nickname := v }
    | none => st
  match st1.connected, st1.nickname with
  | true, some n => st1.send_packet "nick" none [("name", .pystr n)]
  | _, _ => (st1, none, none)

/-- `set_passcode(code=Ellipsis)`. After the optional attribute assignment
the method evaluates `self.get_connectin()` — a typo for `get_connection`,
an attribute the class does not have — so every call raises AttributeError
before anything can be sent. -/
def HeimEndpoint.set_passcode (st : HeimEndpoint) (code : Option (Option String)) :
    HeimEndpoint × Option String × Option PyErr :=
  let st1 : HeimEndpoint := match code with
    | some c => { st with passcode := c }
    | none => st
  (st1, none, some (.attributeError "get_connectin"))

/-- `on_ping_event(packet)`: sends
`send_packet('ping-reply', time=packet.get('time'))`. Note that
`packet.get('time')` reads the TOP-LEVEL `time` key of the packet dict, not
`packet['data']['time']` where a wire ping-event carries its timestamp. -/
def HeimEndpoint.on_ping_event (st : HeimEndpoint) (p : Packet) :
    HeimEndpoint × Option PyErr :=
  let r := st.send_packet "ping-reply" none [("time", pyOfOptInt p.time)]
  (r.1, r.2.2)

/-- `on_bounce_event(packet)`: submit the configured passcode when the
bounce offers passcode authentication and a passcode is set. -/
def HeimEndpoint.on_bounce_event (st : HeimEndpoint) (p : Packet) :
    HeimEndpoint × Option PyErr :=
  if "passcode" ∈ p.data_auth_options ∧ st.passcode ≠ none then
    let r := st.set_passcode none
    (r.1, r.2.2)
  else (st, none)

/-- `on_disconnect_event(packet)`: reconnect when the (top-level) reason is
the hard-coded string. -/
def HeimEndpoint.on_disconnect_event (st : HeimEndpoint) (p : Packet) :
    HeimEndpoint × Option PyErr :=
  if p.reason = some "authentication changed" then
    ({ st with reconnect_requests := st.reconnect_requests + 1 }, none)
  else (st, none)

/-- `on_snapshot_event(packet)`: `handle_login()` (a no-op), mark the
session logged in, then `set_nickname()` — whose default argument `None`
overwrites the nickname attribute, so no `nick` command is sent. -/
def HeimEndpoint.on_snapshot_event (st : HeimEndpoint) :
    HeimEndpoint × Option PyErr :=
  let st1 : HeimEndpoint := { st with _logged_in := true }
  let r := st1.set_nickname (some none)
  (r.1, r.2.2)

/-- Which dispatch tiers of `handle()` ran, and which user-supplied
functions they invoked. -/
structure HandleTrace where
  anyRan : Bool := false
  builtinRan : Option String := none
  handlerRuns : List Nat := []
  callbackRun : Option Nat := none
deriving DecidableEq, Repr

/-- `HeimEndpoint.handle(packet)`.

`_postprocess_packet` wraps nested payload dicts into record classes and
sets `packet['_self']`; on this packet model it changes nothing observable
(its KeyError for malformed packets is caught by `handle`). Tier 1 runs the
catch-all `handle_any` (base implementation: a no-op hook), tier 2 the
built-in `on_*` handler selected by `packet.get('type')` (an exception
there propagates out of `handle`). The next source line,
`if i is not None and t.endswith('-reply'): ...`, references the name `i`,
which is defined neither in `handle` nor globally, so evaluating it raises
NameError — the typeless handlers, the per-type handlers
(`_run_handlers`) and the callback pop below that line are unreachable. -/
def HeimEndpoint.handle (st : HeimEndpoint) (p : Packet) :
    HeimEndpoint × HandleTrace × Option PyErr :=
  let tr : HandleTrace := { anyRan := true }
  let r : HeimEndpoint × HandleTrace × Option PyErr :=
    match p.type with
    | some "bounce-event" =>
      let r := st.on_bounce_event p
      (r.1, { tr with builtinRan := some "bounce-event" }, r.2)
    | some "disconnect-event" =>
      let r := st.on_disconnect_event p
      (r.1, { tr with builtinRan := some "disconnect-event" }, r.2)
    | some "edit-message-event" =>
      (st, { tr with builtinRan := some "edit-message-event" }, none)
    | some "hello-event" =>
      (st, { tr with builtinRan := some "hello-event" }, none)
    | some "join-event" =>
      (st, { tr with builtinRan := some "join-event" }, none)
    | some "login-event" =>
      (st, { tr with builtinRan := some "login-event" }, none)
    | some "logout-event" =>
      (st, { tr with builtinRan := some "logout-event" }, none)
    | some "network-event" =>
      (st, { tr with builtinRan := some "network-event" }, none)
    | some "nick-event" =>
      (st, { tr with builtinRan := some "nick-event" }, none)
    | some "part-event" =>
      (st, { tr with builtinRan := some "part-event" }, none)
    | some "ping-event" =>
      let r := st.on_ping_event p
      (r.1, { tr with builtinRan := some "ping-event" }, r.2)
    | some "send-event" =>
      (st, { tr with builtinRan := some "send-event" }, none)
    | some "snapshot-event" =>
      let r := st.on_snapshot_event
      (r.1, { tr with builtinRan := some "snapshot-event" }, r.2)
    | _ => (st, tr, none)
  match r with
  | (st1, tr1, some e) => (st1, tr1, some e)
  | (st1, tr1, none) => (st1, tr1, some (.nameError "i"))

/-- C1: dispatching a packet of type `foo` with id `0` on an endpoint that
has a handler registered for `foo` and a pending callback under id `0`.
`handle` runs `handle_any` and the (empty) built-in tier, then raises
NameError from the undefined name `i` in
`if i is not None and t.endswith(...)`; the registered handler and the
callback never run, and the callback is not removed from the table — so
the third and fourth dispatch tiers never complete, contrary to the claim
and to `handle`'s own docstring. -/
theorem C1_handle_dispatch_raises :
    HeimEndpoint.handle
        { handlers := [(some "foo", [7])], callbacks := [("0", 3)], connected := true }
        { type := some "foo", id := some "0" }
      = ({ handlers := [(some "foo", [7])], callbacks := [("0", 3)], connected := true },
         { anyRan := true, builtinRan := none, handlerRuns := [], callbackRun := none },
         some (.nameError "i")) :=
  rfl

/-- C5: handling a protocol-conformant ping-event whose timestamp 1234 is
carried in `data['time']` sends exactly one ping-reply — but its `time`
field is None, because `on_ping_event` echoes the absent top-level
`packet['time']` entry rather than the payload timestamp; the claimed
`time = T` does not hold. (The rest of the claim is visible in the result:
exactly one frame is sent and only `cmdid` changes besides.) -/
theorem C5_ping_reply_time :
    (HeimEndpoint.on_ping_event { connected := true }
        { type := some "ping-event", data_time := some 1234 }
      = ({ connected := true, cmdid := 1,
           outbox := [{ type := "ping-reply", id := "0",
                        data := some [("time", PyVal.pynone)] }] }, none))
    ∧ (HeimEndpoint.on_ping_event { connected := true }
        { type := some "ping-event", data_time := some 1234 }).1.outbox
        ≠ [{ type := "ping-reply", id := "0",
             data := some [("time", PyVal.pyint 1234)] }] :=
  ⟨rfl, by decide⟩

/-- C6: a bounce-event offering passcode authentication, on an endpoint
with a configured passcode, calls `set_passcode()` — which unconditionally
raises `AttributeError: get_connectin` (a typo for `get_connection`) before
any `auth` command can be sent; the endpoint state (and in particular the
outbox) is unchanged. -/
theorem C6_bounce_passcode_raises :
    HeimEndpoint.on_bounce_event { connected := true, passcode := some "hunter2" }
        { type := some "bounce-event", data_auth_options := ["passcode"] }
      = ({ connected := true, passcode := some "hunter2" },
         some (.attributeError "get_connectin")) := by
  decide

end Basebot
